import Mathlib

/-!
Shallow embedding of the "sniper" trading bot core (TypeScript sources under
src/): candle aggregation (candleState.ts), order-flow accumulation
(orderflowState.ts), the setup/trigger state machine (setupDetector.ts,
triggerEngine.ts, globalFilters.ts) and the execution adapter
(executionClient.ts).  JavaScript numbers are modelled as rationals,
timestamps as integers, `null`-able results as `Option`.
-/

namespace Sniper

/-- Trade direction, `SetupDirection` / `TradeDirection` in the source. -/
inductive Direction where
  | LONG
  | SHORT
deriving DecidableEq, Repr

/-- Order side, `Side` in executionClient.ts. -/
inductive Side where
  | BUY
  | SELL
deriving DecidableEq, Repr

/-- Instrument symbol (`FuturesSymbol` in types.ts). -/
abbrev Sym := String

/-- Candle timeframe, `Interval` in candleState.ts ("5m" | "15m" | "4h"). -/
inductive Interval where
  | i5m
  | i15m
  | i4h
deriving DecidableEq, Repr

/-- OHLCV candle, `Candle` in candleState.ts.  The `open` field is renamed
`open_` because `open` is a Lean keyword. -/
structure Candle where
  openTime : Int
  closeTime : Int
  open_ : ℚ
  high : ℚ
  low : ℚ
  close : ℚ
  volume : ℚ
  closed : Bool
deriving DecidableEq, Repr

/-- Per-trade aggression bucket, `ImbalanceBucket` in orderflowState.ts. -/
structure ImbalanceBucket where
  timestamp : Int
  aggBuy : ℚ
  aggSell : ℚ
deriving DecidableEq, Repr

/-- String constants used by the model and its concrete fixtures. -/
def ethSym : Sym := "ETHUSDT"

/-- Error text of the adapter's quantity rejection (executionClient.ts). -/
def invalidQtyMsg : String := "Invalid quantity after rounding"

/-- Venue order type of the market entry leg. -/
def marketOrderType : String := "MARKET"

/-- Venue order type of the stop-loss leg. -/
def stopMarketOrderType : String := "STOP_MARKET"

/-- Venue order type of the take-profit leg. -/
def takeProfitMarketOrderType : String := "TAKE_PROFIT_MARKET"

/-- Placeholder adapter error used in counterexamples. -/
def errMsg : String := "err"

/-- Placeholder ISO clock strings used in witnesses and counterexamples. -/
def isoT : String := "T"

/-- Another placeholder clock string. -/
def isoT2 : String := "T2"

/-- Another placeholder clock string. -/
def isoT3 : String := "T3"

/-- A clock reading outside both session windows (13:56 UTC). -/
def isoOutside : String := "2025-10-10T13:56:00.000Z"

/-! ### Execution adapter: quantization (executionClient.ts) -/

/-- Model of JavaScript `Number(x.toFixed(d))`: round `x` to the nearest
multiple of `10 ^ (-d)`, ties toward the larger integer numerator (ECMA
`toFixed` picks the larger `n` on ties). -/
def toFixedQ (d : Nat) (x : ℚ) : ℚ :=
  (⌊x * (10 : ℚ) ^ d + 1 / 2⌋ : ℚ) / (10 : ℚ) ^ d

/-- Model of `ExecutionClient.roundPrice`: `Number(price.toFixed(2))` (the
`Number.isFinite` guard is vacuous over ℚ). -/
def roundPrice (price : ℚ) : ℚ :=
  toFixedQ 2 price

/-- Model of `ExecutionClient.roundQuantity`: `0` for non-positive input, otherwise
`Number(qty.toFixed(3))`. -/
def roundQuantity (qty : ℚ) : ℚ :=
  if qty ≤ 0 then 0 else toFixedQ 3 qty

theorem toFixedQ_int_div (d : Nat) (m : ℤ) :
    toFixedQ d ((m : ℚ) / (10 : ℚ) ^ d) = (m : ℚ) / (10 : ℚ) ^ d := by
  unfold toFixedQ
  have hpow : ((10 : ℚ) ^ d) ≠ 0 := by positivity
  have h1 : (m : ℚ) / (10 : ℚ) ^ d * (10 : ℚ) ^ d = (m : ℚ) := by
    field_simp
  rw [h1]
  have h2 : ⌊(m : ℚ) + 1 / 2⌋ = m := by
    rw [Int.floor_int_add]
    norm_num
  rw [h2]

theorem toFixedQ_idem (d : Nat) (x : ℚ) :
    toFixedQ d (toFixedQ d x) = toFixedQ d x := by
  unfold toFixedQ
  have hpow : ((10 : ℚ) ^ d) ≠ 0 := by positivity
  have h1 : (⌊x * (10 : ℚ) ^ d + 1 / 2⌋ : ℚ) / (10 : ℚ) ^ d * (10 : ℚ) ^ d
      = (⌊x * (10 : ℚ) ^ d + 1 / 2⌋ : ℚ) := by
    field_simp
  rw [h1]
  have h2 : ⌊(⌊x * (10 : ℚ) ^ d + 1 / 2⌋ : ℚ) + 1 / 2⌋ = ⌊x * (10 : ℚ) ^ d + 1 / 2⌋ := by
    rw [Int.floor_int_add]
    norm_num
  rw [h2]

theorem toFixedQ_nonneg (d : Nat) (x : ℚ) (hx : 0 < x) : 0 ≤ toFixedQ d x := by
  unfold toFixedQ
  have hpow : (0 : ℚ) < (10 : ℚ) ^ d := by positivity
  apply div_nonneg _ (le_of_lt hpow)
  have : (0 : ℤ) ≤ ⌊x * (10 : ℚ) ^ d + 1 / 2⌋ := by
    apply Int.floor_nonneg.mpr
    positivity
  exact_mod_cast this

/-! ### Session filter (globalFilters.ts, checkSessionFilter) -/

/-- Model of `checkSessionFilter` from globalFilters.ts, as a function of the current
UTC hour and minute: allowed iff the minute-of-day lies in
[00:05, 13:55] or [14:05, 21:55]. -/
def checkSessionFilter (hour minute : Nat) : Bool :=
  let hm := hour * 60 + minute
  decide ((5 ≤ hm ∧ hm ≤ 835) ∨ (845 ≤ hm ∧ hm ≤ 1315))

/-! ### Candle aggregator (candleState.ts) -/

/-- Model of `CandleState.getCandles(symbol, interval, limit)` on one series: a fresh
copy of the whole list when `limit` is falsy (0) or the list is short enough,
otherwise `list.slice(list.length - limit)` (the last `limit` entries).
Aliasing aspects of the copy are modelled separately (see the heap model
below). -/
def getCandles (l : List Candle) (limit : Nat) : List Candle :=
  if limit = 0 ∨ l.length ≤ limit then l else l.drop (l.length - limit)

/-- Model of `CandleState.handleKline` on one series (the event's OHLCV payload is the
`Candle` argument `e`): if the last entry has the same `openTime`, overwrite
all of its fields in place; otherwise append and trim the series from the
front to `maxLen` (`maxCandlesPerSeries`). -/
def handleKline (maxLen : Nat) (l : List Candle) (e : Candle) : List Candle :=
  match l.getLast? with
  | some last =>
    if last.openTime = e.openTime then
      l.dropLast ++ [e]
    else
      let l' := l ++ [e]
      if maxLen < l'.length then l'.drop (l'.length - maxLen) else l'
  | none =>
    let l' := l ++ [e]
    if maxLen < l'.length then l'.drop (l'.length - maxLen) else l'

/-- One step of `CandleState.ingestHistoricalCandles`: replace the entry with
the same `openTime` if it exists, otherwise append. -/
def upsertByOpenTime (l : List Candle) (c : Candle) : List Candle :=
  match l.findIdx? (fun x => x.openTime = c.openTime) with
  | some i => l.set i c
  | none => l ++ [c]

/-- Comparator used to model `list.sort((a, b) => a.openTime - b.openTime)`. -/
def candleLe (a b : Candle) : Bool :=
  decide (a.openTime ≤ b.openTime)

/-- Model of `CandleState.ingestHistoricalCandles` on one series: upsert each input
candle (forced `closed := true`), then sort ascending by `openTime` (stable,
as JS `Array.prototype.sort`) and trim to `maxLen` from the front. -/
def ingestHistoricalCandles (maxLen : Nat) (l : List Candle) (ks : List Candle) : List Candle :=
  let l' := ks.foldl (fun acc k => upsertByOpenTime acc { k with closed := true }) l
  let s := l'.mergeSort candleLe
  if maxLen < s.length then s.drop (s.length - maxLen) else s

/-- Model of `CandleState.getRVOL15m` on the (raw) 15-minute series.  Mirrors the
source exactly: the length guard is on the raw list; when the last entry is
unclosed it falls back to the closed-filtered list, and when the last entry
is closed it averages the raw 96 entries immediately preceding it. -/
def getRVOL15m (l : List Candle) : Option ℚ :=
  if l.length < 96 + 1 then none
  else
    match l.getLast? with
    | none => none
    | some last =>
      if last.closed = false then
        let closedCandles := l.filter (fun c => c.closed)
        if closedCandles.length < 96 + 1 then none
        else
          match closedCandles.getLast? with
          | none => none
          | some lastClosed =>
            let prevForAvg := (closedCandles.drop (closedCandles.length - 1 - 96)).take 96
            let avgVol := (prevForAvg.map (fun c => c.volume)).sum / (prevForAvg.length : ℚ)
            if avgVol = 0 then none else some (lastClosed.volume / avgVol)
      else
        let prev := (l.drop (l.length - 1 - 96)).take 96
        let avgVol := (prev.map (fun c => c.volume)).sum / (prev.length : ℚ)
        if avgVol = 0 then none else some (last.volume / avgVol)

/-- Modelled from the spec: the RVOL contract as the specification states it
("filter the 15-minute series to closed candles; require ≥97 entries; return
lastClosed.volume / mean(volume of the 96 candles immediately preceding it);
unavailable if fewer than 97 or mean is 0").  Used to compare `getRVOL15m`
against the claimed behaviour. -/
def rvolSpec (l : List Candle) : Option ℚ :=
  let closedCandles := l.filter (fun c => c.closed)
  if closedCandles.length < 97 then none
  else
    match closedCandles.getLast? with
    | none => none
    | some lastClosed =>
      let prev := (closedCandles.drop (closedCandles.length - 1 - 96)).take 96
      let avgVol := (prev.map (fun c => c.volume)).sum / (prev.length : ℚ)
      if avgVol = 0 then none else some (lastClosed.volume / avgVol)

/-- Model of `CandleState.getSwingHighLow4h` on the 4-hour series: over the most
recent 20 closed candles, `(swingLow4h, swingHigh4h) = (min low, max high)`;
`null` with fewer than 20 closed candles.  (The source's `isFinite` guards
cannot fire on a nonempty fold over rationals.) -/
def getSwingHighLow4h (l : List Candle) : Option (ℚ × ℚ) :=
  let closedCandles := l.filter (fun c => c.closed)
  if closedCandles.length < 20 then none
  else
    let last20 := closedCandles.drop (closedCandles.length - 20)
    match (last20.map (fun c => c.low)).min?, (last20.map (fun c => c.high)).max? with
    | some lo, some hi => some (lo, hi)
    | _, _ => none

/-! ### Order-flow accumulator (orderflowState.ts) -/

/-- Model of `OrderflowState.getImbalanceScore(symbol, windowMs)` as a function of the
bucket list and the current time `now` (`Date.now()` in the source): sums
aggression over buckets with `timestamp ≥ now - windowMs` (there is no upper
bound in the source), `null` if both sums are zero, the sentinel 10 if
exactly one is zero, otherwise buy/sell. -/
def getImbalanceScore (buckets : List ImbalanceBucket) (windowMs now : Int) : Option ℚ :=
  let fromTime := now - windowMs
  let inWin := buckets.filter (fun b => fromTime ≤ b.timestamp)
  let totalBuy := (inWin.map (fun b => b.aggBuy)).sum
  let totalSell := (inWin.map (fun b => b.aggSell)).sum
  if totalBuy = 0 ∧ totalSell = 0 then none
  else if totalBuy = 0 ∨ totalSell = 0 then some 10
  else some (totalBuy / totalSell)

/-- Modelled from the spec: the imbalance-ratio contract as the
specification states it, with the two-sided window
`timestamp ∈ [now − windowMs, now]`.  Used to compare `getImbalanceScore`
against the claimed behaviour. -/
def imbalanceScoreSpec (buckets : List ImbalanceBucket) (windowMs now : Int) : Option ℚ :=
  let inWin := buckets.filter (fun b => now - windowMs ≤ b.timestamp ∧ b.timestamp ≤ now)
  let totalBuy := (inWin.map (fun b => b.aggBuy)).sum
  let totalSell := (inWin.map (fun b => b.aggSell)).sum
  if totalBuy = 0 ∧ totalSell = 0 then none
  else if totalBuy = 0 ∨ totalSell = 0 then some 10
  else some (totalBuy / totalSell)

/-! ### Setup detector (setupDetector.ts — the detector imported by
triggerEngine.ts — plus the composite-predicate helpers of the alternate
detector kept in globalFilters.ts) -/

/-- Model of `SetupCheckResult` from setupDetector.ts (the `debug` payload is kept as
the two swing levels). -/
structure SetupCheckResult where
  direction : Direction
  symbol : Sym
  has4hZone : Bool
  in4hZone : Bool
  hasSweep : Bool
  hasImbalance : Bool
  hasCvdDivergence : Bool
  hasBarDeltaSign : Bool
  hasOiDrop : Bool
  hasRvol : Bool
  passed : Bool
  swingLow4h : Option ℚ
  swingHigh4h : Option ℚ
deriving DecidableEq, Repr

/-- Result of `check4hZone`. -/
structure Zone4hResult where
  has4hZone : Bool
  in4hZone : Bool
  swingLow4h : Option ℚ
  swingHigh4h : Option ℚ
deriving DecidableEq, Repr

/-- Model of `check4hZone` from setupDetector.ts: LONG zone is
`[swingLow4h, swingLow4h * 1.008]`, SHORT zone is
`[swingHigh4h * 0.992, swingHigh4h]`. -/
def check4hZone (series4h : List Candle) (direction : Direction) (currentPrice : ℚ) :
    Zone4hResult :=
  match getSwingHighLow4h series4h with
  | none => ⟨false, false, none, none⟩
  | some (lo, hi) =>
    match direction with
    | .LONG =>
      ⟨true, decide (lo ≤ currentPrice ∧ currentPrice ≤ lo * (1008 / 1000)), some lo, some hi⟩
    | .SHORT =>
      ⟨true, decide (hi * (992 / 1000) ≤ currentPrice ∧ currentPrice ≤ hi), some lo, some hi⟩

/-- Model of `checkSweep15m` from setupDetector.ts: wick beyond the swing boundary,
close back inside it. -/
def checkSweep15m (c : Candle) (swingLow4h swingHigh4h : Option ℚ) (direction : Direction) :
    Bool :=
  match direction with
  | .LONG =>
    match swingLow4h with
    | none => false
    | some lo => decide (c.low < lo ∧ lo < c.close)
  | .SHORT =>
    match swingHigh4h with
    | none => false
    | some hi => decide (hi < c.high ∧ c.close < hi)

/-- Does one bucket satisfy the 2.8 imbalance-ratio threshold for the given
direction (body of the loop in `checkImbalance15m`, globalFilters.ts
alternate detector)?  The `continue` on a zero divisor means a bucket with
zero opposite-side volume never qualifies. -/
def bucketQualifies (b : ImbalanceBucket) (direction : Direction) : Bool :=
  match direction with
  | .LONG => decide (0 < b.aggSell ∧ (28 : ℚ) / 10 ≤ b.aggBuy / b.aggSell)
  | .SHORT => decide (0 < b.aggBuy ∧ (28 : ℚ) / 10 ≤ b.aggSell / b.aggBuy)

/-- The counting loop of `checkImbalance15m`: stop with `true` as soon as the
running count of qualifying buckets reaches 3 (the updated count is checked
after every bucket). -/
def imbalanceLoop (direction : Direction) : List ImbalanceBucket → Nat → Bool
  | [], _ => false
  | b :: rest, count =>
    if bucketQualifies b direction then
      if 3 ≤ count + 1 then true else imbalanceLoop direction rest (count + 1)
    else
      if 3 ≤ count then true else imbalanceLoop direction rest count

/-- Model of `checkImbalance15m` from the alternate (composite) detector in
globalFilters.ts: true iff at least 3 buckets within the candle's span
`[startMs, endMs]` reach ratio ≥ 2.8 in the setup's direction. -/
def checkImbalance15m (buckets : List ImbalanceBucket) (startMs endMs : Int)
    (direction : Direction) : Bool :=
  let inRange := buckets.filter (fun b => startMs ≤ b.timestamp ∧ b.timestamp ≤ endMs)
  if inRange.length = 0 then false
  else imbalanceLoop direction inRange 0

/-- Number of qualifying buckets within the candle's span (specification-side
count used to characterise `checkImbalance15m`). -/
def qualifyingCount (buckets : List ImbalanceBucket) (startMs endMs : Int)
    (direction : Direction) : Nat :=
  ((buckets.filter (fun b => startMs ≤ b.timestamp ∧ b.timestamp ≤ endMs)).filter
    (fun b => bucketQualifies b direction)).length

/-- Model of `check15mSetup` from setupDetector.ts — the detector actually imported by
triggerEngine.ts.  It needs ≥2 closed 15m candles and a 4h swing range; once
the swing exists, `passed` is hard-coded `true` ("passed = 4h swing bulundu";
sweep and all other conjuncts are report-only). -/
def check15mSetup (direction : Direction) (symbol : Sym)
    (series15m series4h : List Candle) : Option SetupCheckResult :=
  let candles15m := (getCandles series15m 200).filter (fun c => c.closed)
  if candles15m.length < 2 then none
  else
    match candles15m.getLast? with
    | none => none
    | some current15m =>
      let currentPrice := current15m.close
      let zone := check4hZone series4h direction currentPrice
      if zone.has4hZone = false then none
      else
        let hasSweep := checkSweep15m current15m zone.swingLow4h zone.swingHigh4h direction
        some
          { direction := direction
            symbol := symbol
            has4hZone := zone.has4hZone
            in4hZone := zone.in4hZone
            hasSweep := hasSweep
            hasImbalance := false
            hasCvdDivergence := false
            hasBarDeltaSign := false
            hasOiDrop := false
            hasRvol := false
            passed := true
            swingLow4h := zone.swingLow4h
            swingHigh4h := zone.swingHigh4h }

/-! ### Trigger engine (triggerEngine.ts) -/

/-- Model of `PendingSetup` from triggerEngine.ts. -/
structure PendingSetup where
  symbol : Sym
  direction : Direction
  setupCandle15mOpenTime : Int
  setupInfo : SetupCheckResult
deriving DecidableEq, Repr

/-- The per-instrument candle store the engine reads
(`CandleState.getCandles(symbol, interval, …)`). -/
abbrev CandleStore := Sym → Interval → List Candle

/-- Model of `TriggerEngine.getLast15mOpenTime`: openTime of the last closed candle
among the last 10 of the 15m series. -/
def getLast15mOpenTime (series15m : List Candle) : Option Int :=
  (((getCandles series15m 10).filter (fun c => c.closed)).getLast?).map (fun c => c.openTime)

/-- Do two pending setups collide on the (symbol, direction, armingOpenTime)
key used by `addPendingSetup` / `removePending`? -/
def tripleEq (a b : PendingSetup) : Bool :=
  decide (a.symbol = b.symbol ∧ a.direction = b.direction ∧
    a.setupCandle15mOpenTime = b.setupCandle15mOpenTime)

/-- Does the pending list already hold a setup with the given
(symbol, direction, armingOpenTime) key (the `find` in `addPendingSetup`)? -/
def containsTriple (pending : List PendingSetup) (symbol : Sym) (direction : Direction)
    (t : Int) : Bool :=
  pending.any (fun ps =>
    decide (ps.symbol = symbol ∧ ps.direction = direction ∧ ps.setupCandle15mOpenTime = t))

/-- Model of `TriggerEngine.addPendingSetup`: no-op when the last closed 15m openTime
is unavailable or a pending setup with the same
(symbol, direction, setupCandle15mOpenTime) triple already exists; otherwise
push. -/
def addPendingSetup (pending : List PendingSetup) (series15m : List Candle)
    (symbol : Sym) (direction : Direction) (setupInfo : SetupCheckResult) :
    List PendingSetup :=
  match getLast15mOpenTime series15m with
  | none => pending
  | some t =>
    if containsTriple pending symbol direction t then pending
    else pending ++ [⟨symbol, direction, t, setupInfo⟩]

/-- One direction's arming step inside `TriggerEngine.handle15mClose`:
evaluate the setup and add a pending setup if it passed. -/
def armStep (cs : CandleStore) (symbol : Sym) (direction : Direction)
    (pending : List PendingSetup) : List PendingSetup :=
  match check15mSetup direction symbol (cs symbol .i15m) (cs symbol .i4h) with
  | some r =>
    if r.passed then addPendingSetup pending (cs symbol .i15m) symbol direction r
    else pending
  | none => pending

/-- Body of `TriggerEngine.handle15mClose` for one symbol: evaluate the LONG
then the SHORT setup, adding a pending setup for each that passes. -/
def handle15mCloseSym (cs : CandleStore) (symbol : Sym)
    (pending : List PendingSetup) : List PendingSetup :=
  armStep cs symbol .SHORT (armStep cs symbol .LONG pending)

/-- Model of `TriggerEngine.handle15mClose` over a list of symbols. -/
def handle15mClose (cs : CandleStore) (symbols : List Sym)
    (pending : List PendingSetup) : List PendingSetup :=
  symbols.foldl (fun acc sym => handle15mCloseSym cs sym acc) pending

/-- Model of `TriggerSignal` from triggerEngine.ts.  Note the fields: the signal
carries no execution outcome. -/
structure TriggerSignal where
  id : String
  symbol : Sym
  direction : Direction
  entryCandle5m : Candle
  setupInfo : SetupCheckResult
  createdAt : String
deriving DecidableEq, Repr

/-- Model of `TriggerEngine.buildSignalId`. -/
def buildSignalId (symbol : Sym) (direction : Direction) (candle : Candle) : String :=
  symbol ++ "_" ++ (match direction with | .LONG => "LONG" | .SHORT => "SHORT")
    ++ "_" ++ toString candle.openTime

/-- Model of `OpenPositionParams` from executionClient.ts. -/
structure OpenPositionParams where
  symbol : Sym
  side : Side
  quantity : ℚ
  entryPrice : ℚ
  stopLossPrice : ℚ
  takeProfitPrice : ℚ
  leverage : Int
  isolated : Bool
deriving DecidableEq, Repr

/-- Outcome of `ExecutionClient.openPosition` (the `details` payload is not
modelled). -/
inductive ExecResult where
  | success
  | failure (error : String)
deriving DecidableEq, Repr

/-- The `OpenPositionParams` value `TriggerEngine.executeSignal` builds:
entry = last 5m close, SL/TP at fixed ±1% / ±2% of entry per direction,
leverage 9, isolated margin — and `quantity: 0` (no sizing is performed by
the engine). -/
def executeSignalParams (signal : TriggerSignal) : OpenPositionParams :=
  let entry := signal.entryCandle5m.close
  match signal.direction with
  | .LONG =>
    ⟨signal.symbol, .BUY, 0, entry, entry * (1 - 1 / 100), entry * (1 + 2 / 100), 9, true⟩
  | .SHORT =>
    ⟨signal.symbol, .SELL, 0, entry, entry * (1 + 1 / 100), entry * (1 - 2 / 100), 9, true⟩

/-- Modelled from the spec: the risk-based position size the specification
describes, `(riskFraction × balance) / |entry − stop|`.  There is no
counterpart in the source; this definition exists to compare the claimed
sizing against the engine's actual quantity. -/
def riskQtySpec (riskFraction balance entry stop : ℚ) : ℚ :=
  (riskFraction * balance) / |entry - stop|

/-- A venue order submitted by `ExecutionClient.openPosition` (market entry,
stop-market SL, take-profit-market TP). -/
structure VenueOrder where
  orderType : String
  side : Side
  quantity : Option ℚ
  stopPrice : Option ℚ
  closePosition : Bool
deriving DecidableEq, Repr

/-- Model of `ExecutionClient.openPosition` (happy venue path): round the quantity; if
the rounded quantity is ≤ 0, return failure invalidQtyMsg
without submitting anything; otherwise submit the market entry and the two
reduce-only bracket legs at tick-rounded prices. -/
def openPosition (p : OpenPositionParams) : ExecResult × List VenueOrder :=
  let qtyRounded := roundQuantity p.quantity
  if qtyRounded ≤ 0 then (.failure invalidQtyMsg, [])
  else
    let sl := roundPrice p.stopLossPrice
    let tp := roundPrice p.takeProfitPrice
    let oppositeSide : Side := match p.side with | .BUY => .SELL | .SELL => .BUY
    (.success,
      [⟨marketOrderType, p.side, some qtyRounded, none, false⟩,
       ⟨stopMarketOrderType, oppositeSide, none, some sl, true⟩,
       ⟨takeProfitMarketOrderType, oppositeSide, none, some tp, true⟩])

/-- Observable state threaded through `handle5mClose`: the remaining pending
setups, the signals emitted to `onSignal` handlers, the adapter invocations
(`openPosition` parameter records) and the adapter outcomes. -/
structure Handle5mState where
  pending : List PendingSetup
  signals : List TriggerSignal
  attempts : List OpenPositionParams
  outcomes : List ExecResult
deriving DecidableEq, Repr

/-- One iteration of the `for (const ps of relatedSetups)` loop in
`TriggerEngine.handle5mClose`: build the signal, invoke the adapter
(`executeSignal`), emit the signal to the handlers, and `removePending` the
processed setup — unconditionally (`triggered` is hard-coded `true`, and
removal does not look at the adapter result). -/
def fireOne (adapter : OpenPositionParams → ExecResult) (nowIso : String)
    (symbol : Sym) (last5m : Candle) (st : Handle5mState) (ps : PendingSetup) :
    Handle5mState :=
  let signal : TriggerSignal :=
    ⟨buildSignalId symbol ps.direction last5m, symbol, ps.direction, last5m,
      ps.setupInfo, nowIso⟩
  let params := executeSignalParams signal
  let res := adapter params
  { pending := st.pending.filter (fun p => tripleEq p ps = false)
    signals := st.signals ++ [signal]
    attempts := st.attempts ++ [params]
    outcomes := st.outcomes ++ [res] }

/-- Body of `TriggerEngine.handle5mClose` for one symbol: find the last
closed 5m candle (skip the symbol if none), snapshot the related pending
setups, and run the firing loop over that snapshot. -/
def handle5mCloseSym (cs : CandleStore) (adapter : OpenPositionParams → ExecResult)
    (nowIso : String) (st : Handle5mState) (symbol : Sym) : Handle5mState :=
  match ((getCandles (cs symbol .i5m) 10).filter (fun c => c.closed)).getLast? with
  | none => st
  | some last5m =>
    (st.pending.filter (fun ps => ps.symbol = symbol)).foldl
      (fireOne adapter nowIso symbol last5m) st

/-- Model of `TriggerEngine.handle5mClose` over a list of symbols, starting from a
pending-setup list. -/
def handle5mClose (cs : CandleStore) (adapter : OpenPositionParams → ExecResult)
    (nowIso : String) (symbols : List Sym) (pending : List PendingSetup) :
    Handle5mState :=
  symbols.foldl (handle5mCloseSym cs adapter nowIso) ⟨pending, [], [], []⟩

/-! ### C6 — RVOL -/

/-- C6 (amended): whenever every entry of the 15m series is closed — in
particular in the claim's own examples — `getRVOL15m` coincides with the
claimed contract (`rvolSpec`): require ≥97 closed candles and return the
last closed candle's volume over the mean of the preceding 96, `null`
otherwise or when the mean is 0.  (When the series' final entry is closed
but an earlier one is not, the code instead averages the raw preceding 96
entries; see the counterexample.) -/
theorem getRVOL15m_eq_spec_of_all_closed (l : List Candle)
    (h : ∀ c ∈ l, c.closed = true) :
    getRVOL15m l = rvolSpec l := by
  have hf : l.filter (fun c => c.closed) = l := List.filter_eq_self.mpr (by
    intro c hc
    simpa using h c hc)
  unfold getRVOL15m rvolSpec
  rw [hf]
  by_cases hl : l.length < 96 + 1
  · rw [if_pos hl, if_pos (by omega : l.length < 97)]
  · rw [if_neg hl, if_neg (by omega : ¬ l.length < 97)]
    cases hlast : l.getLast? with
    | none => rfl
    | some last =>
      have hcl : last.closed = true := h last (List.mem_of_getLast?_eq_some hlast)
      dsimp only
      rw [if_neg (by simp [hcl])]

/-- A closed 15m candle with volume 20. -/
def cc20 : Candle := ⟨0, 899999, 100, 101, 99, 100, 20, true⟩

/-- A closed 15m candle with volume 50. -/
def cc50 : Candle := ⟨0, 899999, 100, 101, 99, 100, 50, true⟩

/-- An unclosed candle with volume 7 (a bar whose close event was never
received stays `closed=false` in the middle of the series). -/
def cc7open : Candle := ⟨0, 899999, 100, 101, 99, 100, 7, false⟩

/-- Series of 97 closed candles: 96 of volume 20 then one of volume 50. -/
def exGoodSeries : List Candle := List.replicate 96 cc20 ++ [cc50]

/-- Series of 97 candles whose first entry is unclosed: only 96 closed candles. -/
def exBadSeries : List Candle := cc7open :: (List.replicate 95 cc20 ++ [cc50])

set_option maxHeartbeats 2000000 in
set_option maxRecDepth 10000 in
unseal Rat.add Rat.mul Rat.inv Rat.sub in
/-- Witness for C6: with 97 closed candles (last volume 50, preceding mean
20) the code and the claimed contract agree and both return 2.5. -/
theorem getRVOL15m_eq_spec_of_all_closed_witness :
    (∀ c ∈ exGoodSeries, c.closed = true) ∧
    getRVOL15m exGoodSeries = rvolSpec exGoodSeries ∧
    getRVOL15m exGoodSeries = some (5 / 2) :=
  ⟨by decide, getRVOL15m_eq_spec_of_all_closed _ (by decide), by decide⟩

set_option maxHeartbeats 2000000 in
set_option maxRecDepth 10000 in
unseal Rat.add Rat.mul Rat.inv Rat.sub in
/-- C6 counterexample: a 97-entry series with only 96 closed candles (the
first entry is an unclosed bar).  The claim requires the unavailable value
(null), but because the raw length is 97 and the LAST entry is closed, the
code averages the raw preceding 96 entries — unclosed one included — and
returns 4800/1907 instead of null. -/
theorem rvol_closed_filter_counterexample :
    (exBadSeries.filter (fun c => c.closed)).length = 96 ∧
    rvolSpec exBadSeries = none ∧
    getRVOL15m exBadSeries = some (4800 / 1907) := by
  decide

/-! ### Series invariant (spec §3, "Series") -/

/-- The series invariant the specification states for every
(instrument, timeframe) series: strictly increasing `openTime` and length
bounded by the capacity. -/
def SeriesInv (maxLen : Nat) (l : List Candle) : Prop :=
  List.Pairwise (fun a b => a.openTime < b.openTime) l ∧ l.length ≤ maxLen

instance (maxLen : Nat) (l : List Candle) : Decidable (SeriesInv maxLen l) := by
  unfold SeriesInv
  infer_instance

/-- All openTime keys in the series are distinct. -/
def keysNodup (l : List Candle) : Prop :=
  (l.map Candle.openTime).Nodup

theorem map_openTime_set (xs : List Candle) :
    ∀ (i : Nat) (c : Candle), (∀ x, xs.get? i = some x → x.openTime = c.openTime) →
      (xs.set i c).map Candle.openTime = xs.map Candle.openTime := by
  induction xs with
  | nil => intro i c _; rfl
  | cons x rest ih =>
    intro i c h
    cases i with
    | zero =>
      have hx : x.openTime = c.openTime := h x rfl
      simp [List.set, hx]
    | succ n =>
      simp only [List.set, List.map_cons]
      rw [ih n c (fun y hy => h y hy)]

theorem upsert_keysNodup (l : List Candle) (c : Candle) (h : keysNodup l) :
    keysNodup (upsertByOpenTime l c) := by
  unfold upsertByOpenTime
  cases hidx : l.findIdx? (fun x => decide (x.openTime = c.openTime)) with
  | some i =>
    unfold keysNodup
    rw [map_openTime_set l i c ?hkey]
    · exact h
    case hkey =>
      intro x hx
      obtain ⟨hlt, hp, _⟩ := List.findIdx?_eq_some_iff_getElem.mp hidx
      have hx2 : l[i]? = some x := by
        rw [← List.get?_eq_getElem?]
        exact hx
      have hx3 : l[i]? = some l[i] := List.getElem?_eq_getElem hlt
      have hxi : l[i] = x := Option.some.inj (hx3.symm.trans hx2)
      rw [← hxi]
      simpa using hp
  | none =>
    have hnone := List.findIdx?_eq_none_iff.mp hidx
    unfold keysNodup
    rw [List.map_append]
    rw [List.nodup_append]
    refine ⟨h, by simp, ?_⟩
    intro t ht ht2
    simp only [List.map_cons, List.map_nil, List.mem_singleton] at ht2
    subst ht2
    obtain ⟨x, hx, hxt⟩ := List.mem_map.mp ht
    have := hnone x hx
    simp only [decide_eq_false_iff_not] at this
    exact this (by rw [hxt])

theorem foldl_upsert_keysNodup (ks : List Candle) :
    ∀ (l : List Candle), keysNodup l →
      keysNodup (ks.foldl (fun acc k => upsertByOpenTime acc { k with closed := true }) l)
  | l, h => by
    induction ks generalizing l with
    | nil => exact h
    | cons k rest ih =>
      rw [List.foldl_cons]
      exact ih _ (upsert_keysNodup l _ h)

theorem candleLe_trans (a b c : Candle) :
    candleLe a b → candleLe b c → candleLe a c := by
  unfold candleLe
  intro h1 h2
  simp only [decide_eq_true_eq] at h1 h2 ⊢
  omega

theorem candleLe_total (a b : Candle) : candleLe a b || candleLe b a := by
  unfold candleLe
  rcases le_total a.openTime b.openTime with h | h
  · simp [h]
  · simp [h]

theorem pairwise_lt_of_sorted_keysNodup (l : List Candle)
    (hs : List.Pairwise (fun a b => candleLe a b = true) l) (hn : keysNodup l) :
    List.Pairwise (fun a b : Candle => a.openTime < b.openTime) l := by
  have hne : List.Pairwise (fun a b : Candle => a.openTime ≠ b.openTime) l := by
    unfold keysNodup List.Nodup at hn
    exact List.pairwise_map.mp hn
  have := hs.and hne
  apply this.imp
  intro a b hab
  have h1 : a.openTime ≤ b.openTime := by
    have := hab.1
    simpa [candleLe] using this
  exact lt_of_le_of_ne h1 hab.2

theorem trim_seriesInv (maxLen : Nat) (l : List Candle)
    (h : List.Pairwise (fun a b : Candle => a.openTime < b.openTime) l) :
    SeriesInv maxLen (if maxLen < l.length then l.drop (l.length - maxLen) else l) := by
  by_cases hlen : maxLen < l.length
  · rw [if_pos hlen]
    constructor
    · exact h.sublist (List.drop_sublist _ _)
    · rw [List.length_drop]
      omega
  · rw [if_neg hlen]
    exact ⟨h, by omega⟩

/-- C8 (amended): the series invariant (strictly increasing openTime, length
at most the capacity, oldest evicted first) is preserved by every backfill
ingestion, and by a live update whose openTime is not older than the series'
last entry (the in-place update of the same openTime and the append of a
newer candle both preserve it); a live event with an openTime older than the
last entry is appended out of order and breaks strict monotonicity (see the
counterexample). -/
theorem series_invariant_preserved (maxLen : Nat) (l : List Candle) (e : Candle)
    (ks : List Candle) (hinv : SeriesInv maxLen l) :
    ((∀ last, l.getLast? = some last → last.openTime ≤ e.openTime) →
      SeriesInv maxLen (handleKline maxLen l e)) ∧
    SeriesInv maxLen (ingestHistoricalCandles maxLen l ks) := by
  obtain ⟨hpair, hlen⟩ := hinv
  constructor
  · intro hle
    unfold handleKline
    cases hlast : l.getLast? with
    | none =>
      have hnil : l = [] := by
        cases l with
        | nil => rfl
        | cons a as => simp at hlast
      subst hnil
      dsimp only
      have h1 : List.Pairwise (fun a b : Candle => a.openTime < b.openTime) [e] :=
        List.pairwise_singleton _ _
      have := trim_seriesInv maxLen [e] h1
      simpa using this
    | some last =>
      obtain ⟨ys, hys⟩ := List.getLast?_eq_some_iff.mp hlast
      dsimp only
      by_cases heq : last.openTime = e.openTime
      · rw [if_pos heq]
        subst hys
        rw [List.dropLast_concat]
        rw [List.pairwise_append] at hpair
        constructor
        · rw [List.pairwise_append]
          refine ⟨hpair.1, List.pairwise_singleton _ _, ?_⟩
          intro a ha b hb
          rw [List.mem_singleton] at hb
          subst hb
          have := hpair.2.2 a ha last (List.mem_singleton.mpr rfl)
          omega
        · simpa using hlen
      · rw [if_neg heq]
        have hlt : last.openTime < e.openTime :=
          lt_of_le_of_ne (hle last hlast) heq
        have hall : ∀ a ∈ l, a.openTime < e.openTime := by
          intro a ha
          subst hys
          rcases List.mem_append.mp ha with h1 | h1
          · have := (List.pairwise_append.mp hpair).2.2 a h1 last (List.mem_singleton.mpr rfl)
            omega
          · rw [List.mem_singleton] at h1
            subst h1
            exact hlt
        have hpair' : List.Pairwise (fun a b : Candle => a.openTime < b.openTime) (l ++ [e]) := by
          rw [List.pairwise_append]
          exact ⟨hpair, List.pairwise_singleton _ _, fun a ha b hb => by
            rw [List.mem_singleton] at hb
            subst hb
            exact hall a ha⟩
        exact trim_seriesInv maxLen (l ++ [e]) hpair'
  · unfold ingestHistoricalCandles
    have hn0 : keysNodup l := by
      unfold keysNodup List.Nodup
      apply List.pairwise_map.mpr
      exact hpair.imp (fun h => ne_of_lt h)
    have hn1 : keysNodup
        (ks.foldl (fun acc k => upsertByOpenTime acc { k with closed := true }) l) :=
      foldl_upsert_keysNodup ks l hn0
    set l' := ks.foldl (fun acc k => upsertByOpenTime acc { k with closed := true }) l with hl'
    have hsorted : List.Pairwise (fun a b => candleLe a b = true) (l'.mergeSort candleLe) :=
      List.sorted_mergeSort candleLe_trans candleLe_total l'
    have hperm : (l'.mergeSort candleLe).Perm l' := List.mergeSort_perm l' candleLe
    have hn2 : keysNodup (l'.mergeSort candleLe) := by
      unfold keysNodup
      exact ((hperm.map Candle.openTime).symm).nodup hn1
    exact trim_seriesInv maxLen _ (pairwise_lt_of_sorted_keysNodup _ hsorted hn2)

/-- A closed candle at openTime 900000. -/
def cA : Candle := ⟨900000, 1799999, 100, 101, 99, 100, 10, true⟩

/-- A closed candle at openTime 0 (older than `cA`). -/
def cOld : Candle := ⟨0, 899999, 100, 101, 99, 100, 10, true⟩

/-- Witness for C8: a newer live candle and a backfill both preserve the
invariant on a concrete singleton series. -/
theorem series_invariant_preserved_witness :
    SeriesInv 2000 [cOld] ∧
    (∀ last, [cOld].getLast? = some last → last.openTime ≤ cA.openTime) ∧
    SeriesInv 2000 (handleKline 2000 [cOld] cA) ∧
    SeriesInv 2000 (ingestHistoricalCandles 2000 [cOld] [cA]) := by
  have hle : ∀ last, [cOld].getLast? = some last → last.openTime ≤ cA.openTime := by
    intro last h
    have : cOld = last := Option.some.inj h
    rw [← this]
    decide
  refine ⟨by decide, hle, ?_, ?_⟩
  · exact (series_invariant_preserved 2000 [cOld] cA [cA] (by decide)).1 hle
  · exact (series_invariant_preserved 2000 [cOld] cA [cA] (by decide)).2

/-- C8 counterexample: a live kline event whose openTime (0) is older than
the series' last entry (900000) is appended at the end, breaking the
strictly-increasing-openTime invariant. -/
theorem series_invariant_counterexample :
    SeriesInv 2000 [cA] ∧
    ¬ SeriesInv 2000 (handleKline 2000 [cA] cOld) ∧
    cOld.openTime < cA.openTime := by
  decide

/-! ### Heap-level model of `getCandles` aliasing (candleState.ts)

JavaScript arrays and candle objects live on a heap and are passed by
reference.  `CandleState.getCandles` returns `[...list]` or `list.slice(…)`:
a freshly allocated array object whose elements are the same candle-object
references as the internal series.  To settle the frame claim we model both
levels of indirection: `candleHeap` holds candle objects (addressed by
index), `arrayHeap` holds array objects (lists of candle addresses), and
`seriesIdx` is the address of the internal series array. -/

/-- Placeholder candle used for out-of-range heap reads (never reached under
the well-formedness hypotheses). -/
def dummyCandle : Candle :=
  ⟨0, 0, 0, 0, 0, 0, 0, false⟩

/-- Two-level heap state for one (symbol, interval) series. -/
structure HeapState where
  candleHeap : List Candle
  arrayHeap : List (List Nat)
  seriesIdx : Nat
deriving DecidableEq, Repr

/-- The candle sequence an array object at address `addr` denotes: its
candle-address list, dereferenced through the candle heap. -/
def viewArray (st : HeapState) (addr : Nat) : List Candle :=
  (st.arrayHeap.getD addr []).map (fun a => st.candleHeap.getD a dummyCandle)

/-- Heap-level `getCandles`: allocate a fresh array object containing a copy
of the series' address list (full copy, or the `slice` suffix), return the
new state and the new array's address. -/
def getCandlesRef (st : HeapState) (limit : Nat) : HeapState × Nat :=
  let series := st.arrayHeap.getD st.seriesIdx []
  let copied :=
    if limit = 0 ∨ series.length ≤ limit then series
    else series.drop (series.length - limit)
  ({ st with arrayHeap := st.arrayHeap ++ [copied] }, st.arrayHeap.length)

/-- Mutating an array object in place (push/pop/splice/index assignment are
all instances): replace its contents. -/
def setArrayContents (st : HeapState) (addr : Nat) (contents : List Nat) : HeapState :=
  { st with arrayHeap := st.arrayHeap.set addr contents }

/-- Heap-level `handleKline`: when the incoming openTime matches the last
entry, the candle OBJECT is mutated in place (the series' address list is
untouched); otherwise a new candle object is allocated, its address appended
to the series array, and the series array trimmed to `maxLen`. -/
def handleKlineRef (maxLen : Nat) (st : HeapState) (e : Candle) : HeapState :=
  let series := st.arrayHeap.getD st.seriesIdx []
  let push : HeapState :=
    let newAddr := st.candleHeap.length
    let series' := series ++ [newAddr]
    let trimmed :=
      if maxLen < series'.length then series'.drop (series'.length - maxLen) else series'
    { st with
      candleHeap := st.candleHeap ++ [e]
      arrayHeap := st.arrayHeap.set st.seriesIdx trimmed }
  match series.getLast? with
  | some lastAddr =>
    if (st.candleHeap.getD lastAddr dummyCandle).openTime = e.openTime then
      { st with candleHeap := st.candleHeap.set lastAddr e }
    else push
  | none => push

/-- One upsert inside the heap-level backfill (`ingestHistoricalCandles`): a
FRESH candle object is allocated for the input kline (`const candle = {…}`,
forced `closed := true`); if the series already holds a candle with the same
openTime, the series array's slot is redirected to the new object
(`list[existingIndex] = candle`), otherwise the new address is pushed.  No
existing candle object is ever mutated. -/
def ingestOneRef (st : HeapState) (k : Candle) : HeapState :=
  let series := st.arrayHeap.getD st.seriesIdx []
  let newAddr := st.candleHeap.length
  match series.findIdx? (fun a =>
      (st.candleHeap.getD a dummyCandle).openTime = k.openTime) with
  | some i =>
    { st with
      candleHeap := st.candleHeap ++ [{ k with closed := true }]
      arrayHeap := st.arrayHeap.set st.seriesIdx (series.set i newAddr) }
  | none =>
    { st with
      candleHeap := st.candleHeap ++ [{ k with closed := true }]
      arrayHeap := st.arrayHeap.set st.seriesIdx (series ++ [newAddr]) }

/-- Sort the internal series array in place by the referenced candles'
openTime (JS `list.sort`), then trim it to `maxLen` from the front
(`list.splice`).  Only the series array object is mutated. -/
def sortTrimSeriesRef (maxLen : Nat) (st : HeapState) : HeapState :=
  let series := st.arrayHeap.getD st.seriesIdx []
  let sorted := series.mergeSort (fun a b =>
    decide ((st.candleHeap.getD a dummyCandle).openTime ≤
      (st.candleHeap.getD b dummyCandle).openTime))
  let trimmed :=
    if maxLen < sorted.length then sorted.drop (sorted.length - maxLen) else sorted
  { st with arrayHeap := st.arrayHeap.set st.seriesIdx trimmed }

/-- Heap-level `CandleState.ingestHistoricalCandles`: upsert every input
kline (each as a freshly allocated candle object), then sort the internal
series array by openTime and trim it to capacity. -/
def ingestHistoricalRef (maxLen : Nat) (st : HeapState) (ks : List Candle) : HeapState :=
  sortTrimSeriesRef maxLen (ks.foldl ingestOneRef st)

/-- Addresses are in range: the series array exists and every address held
by any array object points into the candle heap. -/
def HeapWF (st : HeapState) : Prop :=
  st.seriesIdx < st.arrayHeap.length ∧
  ∀ arr ∈ st.arrayHeap, ∀ a ∈ arr, a < st.candleHeap.length

instance (st : HeapState) : Decidable (HeapWF st) := by
  unfold HeapWF
  infer_instance

theorem getD_set_ne {α : Type} (xs : List α) (i j : Nat) (v d : α) (h : i ≠ j) :
    (xs.set i v).getD j d = xs.getD j d := by
  simp [List.getD_eq_getElem?_getD, List.getElem?_set_ne h]

theorem getD_append_left {α : Type} (xs ys : List α) (i : Nat) (d : α) (h : i < xs.length) :
    (xs ++ ys).getD i d = xs.getD i d := by
  simp [List.getD_eq_getElem?_getD, List.getElem?_append_left h]

theorem getD_append_len {α : Type} (xs : List α) (y : α) (d : α) :
    (xs ++ [y]).getD xs.length d = y := by
  simp [List.getD_eq_getElem?_getD, List.getElem?_append_right (le_refl _)]

theorem ingestOneRef_frame (st : HeapState) (k : Candle) (r : Nat)
    (hr : r ≠ st.seriesIdx) :
    (ingestOneRef st k).arrayHeap.getD r [] = st.arrayHeap.getD r [] ∧
    (ingestOneRef st k).seriesIdx = st.seriesIdx ∧
    ∃ c, (ingestOneRef st k).candleHeap = st.candleHeap ++ [c] := by
  unfold ingestOneRef
  dsimp only
  cases (st.arrayHeap.getD st.seriesIdx []).findIdx? (fun a =>
      decide ((st.candleHeap.getD a dummyCandle).openTime = k.openTime)) with
  | some i =>
    dsimp only
    exact ⟨getD_set_ne _ _ _ _ _ (fun h => hr h.symm), rfl, ⟨_, rfl⟩⟩
  | none =>
    dsimp only
    exact ⟨getD_set_ne _ _ _ _ _ (fun h => hr h.symm), rfl, ⟨_, rfl⟩⟩

theorem ingestOneRef_view (st : HeapState) (k : Candle) (r : Nat)
    (hr : r ≠ st.seriesIdx)
    (hv : ∀ a ∈ st.arrayHeap.getD r [], a < st.candleHeap.length) :
    viewArray (ingestOneRef st k) r = viewArray st r ∧
    (ingestOneRef st k).arrayHeap.getD r [] = st.arrayHeap.getD r [] ∧
    (ingestOneRef st k).seriesIdx = st.seriesIdx ∧
    st.candleHeap.length ≤ (ingestOneRef st k).candleHeap.length := by
  obtain ⟨harr, hsi, c, hch⟩ := ingestOneRef_frame st k r hr
  refine ⟨?_, harr, hsi, ?_⟩
  · unfold viewArray
    rw [harr, hch]
    apply List.map_congr_left
    intro a ha
    exact getD_append_left _ _ _ _ (hv a ha)
  · rw [hch]
    simp

theorem foldl_ingestOneRef_view :
    ∀ (ks : List Candle) (st : HeapState) (r : Nat), r ≠ st.seriesIdx →
      (∀ a ∈ st.arrayHeap.getD r [], a < st.candleHeap.length) →
      viewArray (ks.foldl ingestOneRef st) r = viewArray st r ∧
      (ks.foldl ingestOneRef st).seriesIdx = st.seriesIdx
  | [], _, _, _, _ => ⟨rfl, rfl⟩
  | k :: rest, st, r, hr, hv => by
    rw [List.foldl_cons]
    have hstep := ingestOneRef_view st k r hr hv
    have hrec := foldl_ingestOneRef_view rest (ingestOneRef st k) r
      (by rw [hstep.2.2.1]; exact hr)
      (by
        rw [hstep.2.1]
        intro a ha
        exact lt_of_lt_of_le (hv a ha) hstep.2.2.2)
    exact ⟨hrec.1.trans hstep.1, hrec.2.trans hstep.2.2.1⟩

theorem sortTrimSeriesRef_view (maxLen : Nat) (st : HeapState) (r : Nat)
    (hr : r ≠ st.seriesIdx) :
    viewArray (sortTrimSeriesRef maxLen st) r = viewArray st r := by
  unfold sortTrimSeriesRef viewArray
  dsimp only
  rw [getD_set_ne _ _ _ _ _ (fun h => hr h.symm)]

theorem ingestHistoricalRef_view (maxLen : Nat) (ks : List Candle) (st : HeapState)
    (r : Nat) (hr : r ≠ st.seriesIdx)
    (hv : ∀ a ∈ st.arrayHeap.getD r [], a < st.candleHeap.length) :
    viewArray (ingestHistoricalRef maxLen st ks) r = viewArray st r := by
  unfold ingestHistoricalRef
  have hfold := foldl_ingestOneRef_view ks st r hr hv
  rw [sortTrimSeriesRef_view maxLen _ r (by rw [hfold.2]; exact hr)]
  exact hfold.1

/-- C10 (amended): `getCandles` does return a freshly allocated array
object — it is a different object from the internal series, mutating it
leaves the internal series' contents untouched, an appending live update
(new openTime) leaves the previously returned array's contents untouched,
and every backfill ingestion leaves the previously returned array's contents
untouched (backfills only allocate fresh candle objects and mutate the
internal series array, never a shared candle object); but the candle OBJECTS
are shared, so an in-place live update (same openTime) is visible through
previously returned arrays (see the counterexample). -/
theorem getCandles_returns_fresh_array (st : HeapState) (limit : Nat)
    (contents : List Nat) (e : Candle) (maxLen : Nat) (ks : List Candle)
    (hwf : HeapWF st) :
    (getCandlesRef st limit).2 ≠ ((getCandlesRef st limit).1).seriesIdx ∧
    viewArray
        (setArrayContents (getCandlesRef st limit).1 (getCandlesRef st limit).2 contents)
        ((getCandlesRef st limit).1).seriesIdx =
      viewArray (getCandlesRef st limit).1 ((getCandlesRef st limit).1).seriesIdx ∧
    (((((getCandlesRef st limit).1).arrayHeap.getD ((getCandlesRef st limit).1).seriesIdx
          []).getLast?).elim True
        (fun lastAddr =>
          (((getCandlesRef st limit).1).candleHeap.getD lastAddr dummyCandle).openTime ≠
            e.openTime) →
      viewArray (handleKlineRef maxLen (getCandlesRef st limit).1 e)
          (getCandlesRef st limit).2 =
        viewArray (getCandlesRef st limit).1 (getCandlesRef st limit).2) ∧
    viewArray (ingestHistoricalRef maxLen (getCandlesRef st limit).1 ks)
        (getCandlesRef st limit).2 =
      viewArray (getCandlesRef st limit).1 (getCandlesRef st limit).2 := by
  obtain ⟨hidx, haddr⟩ := hwf
  unfold getCandlesRef
  dsimp only
  have hne : st.seriesIdx ≠ st.arrayHeap.length := by omega
  have hseries_eq :
      (st.arrayHeap ++
          [if limit = 0 ∨ (st.arrayHeap.getD st.seriesIdx []).length ≤ limit then
            st.arrayHeap.getD st.seriesIdx []
          else
            (st.arrayHeap.getD st.seriesIdx []).drop
              ((st.arrayHeap.getD st.seriesIdx []).length - limit)]).getD st.seriesIdx [] =
        st.arrayHeap.getD st.seriesIdx [] :=
    getD_append_left _ _ _ _ hidx
  have hcopied_mem : ∀ a ∈
      (if limit = 0 ∨ (st.arrayHeap.getD st.seriesIdx []).length ≤ limit then
        st.arrayHeap.getD st.seriesIdx []
      else
        (st.arrayHeap.getD st.seriesIdx []).drop
          ((st.arrayHeap.getD st.seriesIdx []).length - limit)),
      a < st.candleHeap.length := by
    intro a ha
    have hser_mem : st.arrayHeap.getD st.seriesIdx [] ∈ st.arrayHeap := by
      have h1 : (st.arrayHeap.getD st.seriesIdx []) = st.arrayHeap[st.seriesIdx] := by
        simp [List.getD_eq_getElem?_getD, List.getElem?_eq_getElem hidx]
      rw [h1]
      exact List.getElem_mem hidx
    have hmem : a ∈ st.arrayHeap.getD st.seriesIdx [] := by
      by_cases hcase : limit = 0 ∨ (st.arrayHeap.getD st.seriesIdx []).length ≤ limit
      · rw [if_pos hcase] at ha
        exact ha
      · rw [if_neg hcase] at ha
        exact List.mem_of_mem_drop ha
    exact haddr _ hser_mem a hmem
  refine ⟨fun hcontra => hne hcontra.symm, ?_, fun hnot => ?_, ?_⟩
  case refine_3 =>
    apply ingestHistoricalRef_view
    · exact fun h => hne h.symm
    · intro a ha
      dsimp only at ha
      rw [getD_append_len] at ha
      exact hcopied_mem a ha
  · unfold viewArray setArrayContents
    dsimp only
    rw [getD_set_ne _ _ _ _ _ (fun hcontra => hne hcontra.symm)]
  · unfold handleKlineRef
    dsimp only
    rw [hseries_eq]
    cases hlast : (st.arrayHeap.getD st.seriesIdx []).getLast? with
    | none =>
      unfold viewArray
      dsimp only
      rw [getD_set_ne _ _ _ _ _ hne, getD_append_len]
      apply List.map_congr_left
      intro a ha
      exact getD_append_left _ _ _ _ (hcopied_mem a ha)
    | some lastAddr =>
      rw [hseries_eq, hlast] at hnot
      dsimp only [Option.elim] at hnot
      dsimp only
      rw [if_neg hnot]
      unfold viewArray
      dsimp only
      rw [getD_set_ne _ _ _ _ _ hne, getD_append_len]
      apply List.map_congr_left
      intro a ha
      exact getD_append_left _ _ _ _ (hcopied_mem a ha)

/-- A concrete heap: one in-progress candle object, the internal series
array holding its address. -/
def st0 : HeapState :=
  ⟨[⟨0, 899999, 100, 101, 99, 100, 10, false⟩], [[0]], 0⟩

/-- The in-place live update for the same openTime (new close/volume,
candle now closed). -/
def e1 : Candle := ⟨0, 899999, 100, 101, 99, 105, 12, true⟩

/-- A later candle (new openTime), which is appended rather than updated. -/
def e2 : Candle := ⟨900000, 1799999, 100, 101, 99, 105, 12, true⟩

/-- Witness for C10 on the concrete heap `st0` with the appending event
`e2`, both as a live update and as a one-candle backfill. -/
theorem getCandles_returns_fresh_array_witness :
    HeapWF st0 ∧
    ((((getCandlesRef st0 10).1).arrayHeap.getD ((getCandlesRef st0 10).1).seriesIdx
        []).getLast?).elim True
      (fun lastAddr =>
        (((getCandlesRef st0 10).1).candleHeap.getD lastAddr dummyCandle).openTime ≠
          e2.openTime) ∧
    (getCandlesRef st0 10).2 ≠ ((getCandlesRef st0 10).1).seriesIdx ∧
    viewArray (setArrayContents (getCandlesRef st0 10).1 (getCandlesRef st0 10).2 [])
        ((getCandlesRef st0 10).1).seriesIdx =
      viewArray (getCandlesRef st0 10).1 ((getCandlesRef st0 10).1).seriesIdx ∧
    viewArray (handleKlineRef 2000 (getCandlesRef st0 10).1 e2) (getCandlesRef st0 10).2 =
      viewArray (getCandlesRef st0 10).1 (getCandlesRef st0 10).2 ∧
    viewArray (ingestHistoricalRef 2000 (getCandlesRef st0 10).1 [e2])
        (getCandlesRef st0 10).2 =
      viewArray (getCandlesRef st0 10).1 (getCandlesRef st0 10).2 :=
  ⟨by decide, show (0 : Int) ≠ 900000 by decide,
   (getCandles_returns_fresh_array st0 10 [] e2 2000 [e2] (by decide)).1,
   (getCandles_returns_fresh_array st0 10 [] e2 2000 [e2] (by decide)).2.1,
   (getCandles_returns_fresh_array st0 10 [] e2 2000 [e2] (by decide)).2.2.1
     (show (0 : Int) ≠ 900000 by decide),
   (getCandles_returns_fresh_array st0 10 [] e2 2000 [e2] (by decide)).2.2.2⟩

/-- C10 counterexample: after `getCandles` returns an array, an in-place
live update for the same openTime changes the candle contents observed
through the previously returned array object (the array's address list is
unchanged — the shared candle object was mutated). -/
theorem returned_array_mutation_counterexample :
    viewArray (handleKlineRef 2000 (getCandlesRef st0 10).1 e1) (getCandlesRef st0 10).2 ≠
      viewArray (getCandlesRef st0 10).1 (getCandlesRef st0 10).2 ∧
    (handleKlineRef 2000 (getCandlesRef st0 10).1 e1).arrayHeap.getD
        (getCandlesRef st0 10).2 [] =
      ((getCandlesRef st0 10).1).arrayHeap.getD (getCandlesRef st0 10).2 [] := by
  decide

/-! ### Concrete fixtures used by witnesses and counterexamples -/

/-- A closed 5-minute candle with close 100. -/
def ex5mCandle : Candle :=
  ⟨0, 299999, 100, 101, 99, 100, 5, true⟩

/-- A `SetupCheckResult` as the simplified detector produces it. -/
def exSetupInfo : SetupCheckResult :=
  ⟨.LONG, ethSym, true, true, false, false, false, false, false, false, true,
    some 100, some 120⟩

/-- A pending LONG setup on ETHUSDT. -/
def exPending : PendingSetup :=
  ⟨ethSym, .LONG, 0, exSetupInfo⟩

/-- A candle store holding one closed 5m candle for ETHUSDT. -/
def exStore5m : CandleStore := fun sym i =>
  if sym = ethSym ∧ i = .i5m then [ex5mCandle] else []

/-! ### C9 — quantization idempotence -/

/-- C9: `roundPrice` and `roundQuantity` are idempotent, and rounding an
already-aligned price (any integer number of ticks) or an already-aligned
positive quantity (a positive integer number of steps) is a no-op. -/
theorem roundPrice_roundQuantity_idempotent :
    (∀ x : ℚ, roundPrice (roundPrice x) = roundPrice x) ∧
    (∀ q : ℚ, roundQuantity (roundQuantity q) = roundQuantity q) ∧
    (∀ m : ℤ, roundPrice ((m : ℚ) / 100) = (m : ℚ) / 100) ∧
    (∀ m : ℤ, 0 < m → roundQuantity ((m : ℚ) / 1000) = (m : ℚ) / 1000) := by
  refine ⟨fun x => toFixedQ_idem 2 x, fun q => ?_, fun m => ?_, fun m hm => ?_⟩
  · by_cases hq : q ≤ 0
    · simp [roundQuantity, hq]
    · push_neg at hq
      have h1 : roundQuantity q = toFixedQ 3 q := by
        simp [roundQuantity, not_le.mpr hq]
      rw [h1]
      by_cases hz : toFixedQ 3 q ≤ 0
      · have h0 : toFixedQ 3 q = 0 := le_antisymm hz (toFixedQ_nonneg 3 q hq)
        rw [h0]
        simp [roundQuantity]
      · push_neg at hz
        have h2 : roundQuantity (toFixedQ 3 q) = toFixedQ 3 (toFixedQ 3 q) := by
          simp [roundQuantity, not_le.mpr hz]
        rw [h2, toFixedQ_idem]
  · have := toFixedQ_int_div 2 m
    simpa [roundPrice] using this
  · have hpos : (0 : ℚ) < (m : ℚ) / 1000 := by positivity
    have h1 : roundQuantity ((m : ℚ) / 1000) = toFixedQ 3 ((m : ℚ) / 1000) := by
      simp [roundQuantity, not_le.mpr hpos]
    rw [h1]
    have := toFixedQ_int_div 3 m
    simpa using this

/-- Witness for C9 at concrete inputs. -/
theorem roundPrice_roundQuantity_idempotent_witness :
    roundPrice (roundPrice (123 / 7)) = roundPrice (123 / 7) ∧
    roundQuantity (roundQuantity (123 / 7)) = roundQuantity (123 / 7) ∧
    roundPrice ((314 : ℤ) / 100 : ℚ) = ((314 : ℤ) : ℚ) / 100 ∧
    (0 : ℤ) < 5 ∧ roundQuantity (((5 : ℤ) : ℚ) / 1000) = ((5 : ℤ) : ℚ) / 1000 :=
  ⟨roundPrice_roundQuantity_idempotent.1 _,
   roundPrice_roundQuantity_idempotent.2.1 _,
   by simpa using roundPrice_roundQuantity_idempotent.2.2.1 314,
   by decide,
   roundPrice_roundQuantity_idempotent.2.2.2 5 (by decide)⟩

/-! ### C7 — windowed imbalance ratio -/

/-- C7 (amended): `getImbalanceScore` filters buckets only by
`timestamp ≥ now − windowMs` (no upper bound at `now`); whenever no bucket
timestamp exceeds `now` — in particular always when bucket timestamps are
taken from the past — it agrees exactly with the claimed contract
(two-sided window, `null` when both sums are 0, sentinel 10 when exactly one
side is 0, otherwise buy/sell). -/
theorem getImbalanceScore_eq_spec_of_no_future (buckets : List ImbalanceBucket)
    (windowMs now : Int) (h : ∀ b ∈ buckets, b.timestamp ≤ now) :
    getImbalanceScore buckets windowMs now = imbalanceScoreSpec buckets windowMs now := by
  unfold getImbalanceScore imbalanceScoreSpec
  have hfilter :
      buckets.filter (fun b => decide (now - windowMs ≤ b.timestamp)) =
        buckets.filter (fun b => decide (now - windowMs ≤ b.timestamp ∧ b.timestamp ≤ now)) := by
    apply List.filter_congr
    intro b hb
    have hbn : b.timestamp ≤ now := h b hb
    by_cases hge : now - windowMs ≤ b.timestamp
    · simp [hge, hbn]
    · simp [hge]
  simp only [hfilter]

unseal Rat.add Rat.mul Rat.inv Rat.sub in
/-- Witness for C7 at a concrete input: one buy-heavy and one sell bucket
inside the window. -/
theorem getImbalanceScore_eq_spec_of_no_future_witness :
    (∀ b ∈ [ImbalanceBucket.mk 50 3 1, ImbalanceBucket.mk 55 3 1], b.timestamp ≤ 60) ∧
    getImbalanceScore [ImbalanceBucket.mk 50 3 1, ImbalanceBucket.mk 55 3 1] 100 60 =
      imbalanceScoreSpec [ImbalanceBucket.mk 50 3 1, ImbalanceBucket.mk 55 3 1] 100 60 ∧
    getImbalanceScore [ImbalanceBucket.mk 50 3 1, ImbalanceBucket.mk 55 3 1] 100 60 = some 3 :=
  ⟨by decide, getImbalanceScore_eq_spec_of_no_future _ _ _ (by decide), by decide⟩

unseal Rat.add Rat.mul Rat.inv Rat.sub in
/-- C7 counterexample: a single buy-only bucket strictly after `now` lies
outside the claimed window `[now − windowMs, now]` (so the claim demands the
unavailable value), but the code has no upper bound and returns the one-sided
sentinel 10. -/
theorem getImbalanceScore_window_counterexample :
    getImbalanceScore [ImbalanceBucket.mk 1000 5 0] 100 0 = some 10 ∧
    imbalanceScoreSpec [ImbalanceBucket.mk 1000 5 0] 100 0 = none := by
  decide

/-! ### C4 — order sizing -/

/-- C4 (amended): the engine performs no balance-based sizing: every
`executeSignal` hands the adapter quantity 0, and the adapter is invoked and
rejects it ("Invalid quantity after rounding") without submitting any venue
order; the outcome is a failure result, not a skipped signal. -/
theorem executeSignal_quantity_zero (signal : TriggerSignal) :
    (executeSignalParams signal).quantity = 0 ∧
    openPosition (executeSignalParams signal) =
      (ExecResult.failure invalidQtyMsg, []) := by
  have hq : (executeSignalParams signal).quantity = 0 := by
    unfold executeSignalParams
    cases signal.direction <;> rfl
  refine ⟨hq, ?_⟩
  unfold openPosition
  rw [hq]
  have h0 : roundQuantity 0 = 0 := by simp [roundQuantity]
  rw [h0]
  simp

unseal Rat.add Rat.mul Rat.inv Rat.sub in
/-- C4 counterexample: at a concrete fire (entry 100, LONG, stop 99), the
spec's sizing formula with riskFraction 1% and balance 1000 gives quantity
10, but the engine records an adapter invocation with quantity 0 — the
adapter IS invoked with a non-positive quantity rather than the setup being
skipped without invocation. -/
theorem order_sizing_counterexample :
    riskQtySpec (1 / 100) 1000 100 99 = 10 ∧
    ((handle5mClose exStore5m (fun _ => ExecResult.success) isoT2 [ethSym]
        [exPending]).attempts.map (fun p => p.quantity)) = [0] ∧
    ((0 : ℚ) = 10 → False) := by
  refine ⟨?_, by decide, by decide⟩
  unfold riskQtySpec
  norm_num

/-! ### C3 counterexample — no session gate on the 5m close path -/

unseal Rat.add Rat.mul Rat.inv Rat.sub in
/-- C3 counterexample: 13:56 UTC is outside both session windows, yet with a
pending setup and a closed 5m candle the engine fires (the adapter is
invoked) — `handle5mClose` never consults `checkSessionFilter`. -/
theorem session_gate_counterexample :
    checkSessionFilter 13 56 = false ∧
    (handle5mClose exStore5m (fun _ => ExecResult.success) isoOutside
        [ethSym] [exPending]).attempts ≠ [] := by
  decide

/-! ### C1 — the arming predicate -/

theorem imbalanceLoop_eq (d : Direction) :
    ∀ (l : List ImbalanceBucket) (count : Nat), count < 3 →
      (imbalanceLoop d l count = true ↔
        3 ≤ count + (l.filter (fun b => bucketQualifies b d)).length)
  | [], count, hc => by
    unfold imbalanceLoop
    simp only [List.filter_nil, List.length_nil, Nat.add_zero]
    constructor
    · intro h
      simp at h
    · intro h
      exact absurd h (by omega)
  | b :: rest, count, hc => by
    unfold imbalanceLoop
    by_cases hq : bucketQualifies b d = true
    · rw [if_pos hq]
      simp only [List.filter_cons, hq, if_true, List.length_cons]
      by_cases h3 : 3 ≤ count + 1
      · rw [if_pos h3]
        constructor
        · intro _
          omega
        · intro _
          rfl
      · rw [if_neg h3]
        rw [imbalanceLoop_eq d rest (count + 1) (by omega)]
        omega
    · have hq' : bucketQualifies b d = false := by
        cases h : bucketQualifies b d with
        | true => exact absurd h hq
        | false => rfl
      rw [if_neg hq, if_neg (show ¬ 3 ≤ count by omega)]
      rw [imbalanceLoop_eq d rest count hc]
      simp only [List.filter_cons, hq', if_false, Bool.false_eq_true]

theorem checkImbalance15m_iff (buckets : List ImbalanceBucket) (startMs endMs : Int)
    (d : Direction) :
    checkImbalance15m buckets startMs endMs d = true ↔
      3 ≤ qualifyingCount buckets startMs endMs d := by
  unfold checkImbalance15m qualifyingCount
  by_cases hlen :
      (buckets.filter (fun b => startMs ≤ b.timestamp ∧ b.timestamp ≤ endMs)).length = 0
  · rw [if_pos hlen]
    have h0 :
        ((buckets.filter (fun b => startMs ≤ b.timestamp ∧ b.timestamp ≤ endMs)).filter
          (fun b => bucketQualifies b d)).length = 0 := by
      have hsub := List.length_filter_le (fun b => bucketQualifies b d)
        (buckets.filter (fun b => startMs ≤ b.timestamp ∧ b.timestamp ≤ endMs))
      omega
    rw [h0]
    simp
  · rw [if_neg hlen]
    have h := imbalanceLoop_eq d
      (buckets.filter (fun b => startMs ≤ b.timestamp ∧ b.timestamp ≤ endMs)) 0 (by omega)
    simpa using h

/-- C1 (amended): the detector wired into the engine arms purely on data
availability: `check15mSetup` produces a `passed` result iff the 15m series
has at least 2 closed candles (within the 200-candle read) and the 4h swing
range exists — none of the composite conjuncts (zone containment, sweep,
imbalance, aggression sign, divergence, RVOL) gates arming.  The ≥3-window
imbalance predicate of the claim exists only in the alternate detector
(globalFilters.ts), where it does hold exactly when at least 3 sampling
windows reach ratio 2.8 (so 2 windows are rejected, 3 accepted). -/
theorem arming_only_needs_swing (direction : Direction) (symbol : Sym)
    (s15 s4 : List Candle) :
    (((check15mSetup direction symbol s15 s4).elim false (fun r => r.passed)) = true ↔
      (2 ≤ ((getCandles s15 200).filter (fun c => c.closed)).length ∧
        (getSwingHighLow4h s4).isSome = true)) ∧
    (∀ (buckets : List ImbalanceBucket) (startMs endMs : Int) (d : Direction),
      checkImbalance15m buckets startMs endMs d = true ↔
        3 ≤ qualifyingCount buckets startMs endMs d) := by
  refine ⟨?_, fun buckets startMs endMs d => checkImbalance15m_iff buckets startMs endMs d⟩
  unfold check15mSetup
  by_cases hlen : ((getCandles s15 200).filter (fun c => c.closed)).length < 2
  · rw [if_pos hlen]
    simp only [Option.elim]
    constructor
    · intro h
      exact absurd h (by simp)
    · intro h
      omega
  · rw [if_neg hlen]
    have hne : (getCandles s15 200).filter (fun c => c.closed) ≠ [] := by
      intro hnil
      rw [hnil] at hlen
      simp at hlen
    obtain ⟨current15m, hlast⟩ :
        ∃ c, ((getCandles s15 200).filter (fun c => c.closed)).getLast? = some c := by
      cases h : ((getCandles s15 200).filter (fun c => c.closed)).getLast? with
      | none => exact absurd (List.getLast?_isSome.mpr hne) (by simp [h])
      | some c => exact ⟨c, rfl⟩
    rw [hlast]
    dsimp only
    cases hswing : getSwingHighLow4h s4 with
    | none =>
      have hzone : check4hZone s4 direction current15m.close = ⟨false, false, none, none⟩ := by
        unfold check4hZone
        rw [hswing]
      rw [hzone]
      simp
    | some p =>
      obtain ⟨lo, hi⟩ := p
      have hzone : (check4hZone s4 direction current15m.close).has4hZone = true := by
        unfold check4hZone
        rw [hswing]
        cases direction <;> rfl
      rw [if_neg (by simp [hzone])]
      dsimp only [Option.elim]
      constructor
      · intro _
        exact ⟨by omega, by simp⟩
      · intro _
        rfl

/-! ### C1/C2 fixtures: stores where the simplified detector arms -/

/-- A closed 15m candle with close 100 and volume 30 at openTime `t`. -/
def mk15 (t : Int) : Candle :=
  ⟨t, t + 899999, 100, 101, 99, 100, 30, true⟩

/-- A closed 4h candle (low 95, high 120). -/
def mk4h (i : Nat) : Candle :=
  ⟨(i : Int) * 14400000, (i : Int) * 14400000 + 14399999, 100, 120, 95, 110, 1000, true⟩

/-- 15m series with two closed candles (arming candle openTime 900000). -/
def ex15Series : List Candle := [mk15 0, mk15 900000]

/-- The same series one slow close later (arming candle openTime 1800000). -/
def ex15SeriesB : List Candle := [mk15 0, mk15 900000, mk15 1800000]

/-- 20 closed 4h candles, enough for the swing range. -/
def ex4hSeries : List Candle := (List.range 20).map mk4h

/-- Store at the first 15m close. -/
def exStoreA : CandleStore := fun sym i =>
  if sym = ethSym then
    match i with
    | .i15m => ex15Series
    | .i4h => ex4hSeries
    | .i5m => []
  else []

/-- Store at the next 15m close. -/
def exStoreB : CandleStore := fun sym i =>
  if sym = ethSym then
    match i with
    | .i15m => ex15SeriesB
    | .i4h => ex4hSeries
    | .i5m => []
  else []

/-- Buckets within the arming candle's span [900000, 1799999]: exactly two
reach the 2.8 ratio for LONG. -/
def exBuckets : List ImbalanceBucket :=
  [⟨1000000, 30, 10⟩, ⟨1100000, 28, 10⟩, ⟨1200000, 5, 10⟩]

unseal Rat.add Rat.mul Rat.inv Rat.sub in
/-- C1 counterexample: during the arming candle the imbalance-ratio
threshold is met in exactly 2 sampling windows (so the composite predicate
of the claim fails, `checkImbalance15m = false`), yet `handle15mClose`
creates a pending LONG setup for the instrument. -/
theorem composite_predicate_counterexample :
    qualifyingCount exBuckets 900000 1799999 .LONG = 2 ∧
    checkImbalance15m exBuckets 900000 1799999 .LONG = false ∧
    (handle15mClose exStoreA [ethSym] []).any
      (fun ps => ps.symbol = ethSym ∧ ps.direction = .LONG) = true := by
  decide

/-! ### C2 — pending-setup uniqueness -/

/-- No two pending setups share the (symbol, direction, armingOpenTime) key. -/
def NoDupTriple (l : List PendingSetup) : Prop :=
  List.Pairwise (fun a b => tripleEq a b = false) l

theorem addPendingSetup_nodup (pending : List PendingSetup) (s15 : List Candle)
    (symbol : Sym) (direction : Direction) (r : SetupCheckResult)
    (h : NoDupTriple pending) :
    NoDupTriple (addPendingSetup pending s15 symbol direction r) := by
  unfold addPendingSetup
  cases getLast15mOpenTime s15 with
  | none => exact h
  | some t =>
    dsimp only
    by_cases hc : containsTriple pending symbol direction t = true
    · rw [if_pos hc]
      exact h
    · rw [if_neg hc]
      unfold NoDupTriple
      rw [List.pairwise_append]
      refine ⟨h, List.pairwise_singleton _ _, ?_⟩
      intro a ha b hb
      rw [List.mem_singleton] at hb
      subst hb
      have hall := List.any_eq_false.mp (by
        cases hco : containsTriple pending symbol direction t with
        | true => exact absurd hco hc
        | false => exact hco) a ha
      unfold tripleEq
      simp only [decide_eq_true_eq] at hall
      simp only [decide_eq_false_iff_not]
      exact hall

theorem addPendingSetup_contains (pending : List PendingSetup) (s15 : List Candle)
    (symbol : Sym) (direction : Direction) (r : SetupCheckResult) (t : Int)
    (ht : getLast15mOpenTime s15 = some t) :
    containsTriple (addPendingSetup pending s15 symbol direction r) symbol direction t
      = true := by
  unfold addPendingSetup
  rw [ht]
  dsimp only
  by_cases hc : containsTriple pending symbol direction t = true
  · rw [if_pos hc]
    exact hc
  · rw [if_neg hc]
    unfold containsTriple
    rw [List.any_append]
    have : ([(⟨symbol, direction, t, r⟩ : PendingSetup)].any (fun ps =>
        decide (ps.symbol = symbol ∧ ps.direction = direction ∧
          ps.setupCandle15mOpenTime = t))) = true := by
      simp
    rw [this, Bool.or_true]

theorem addPendingSetup_contains_mono (pending : List PendingSetup) (s15 : List Candle)
    (symbol s0 : Sym) (direction d0 : Direction) (r : SetupCheckResult) (t : Int)
    (hc : containsTriple pending s0 d0 t = true) :
    containsTriple (addPendingSetup pending s15 symbol direction r) s0 d0 t = true := by
  unfold addPendingSetup
  cases getLast15mOpenTime s15 with
  | none => exact hc
  | some t' =>
    dsimp only
    by_cases hdup : containsTriple pending symbol direction t' = true
    · rw [if_pos hdup]
      exact hc
    · rw [if_neg hdup]
      unfold containsTriple at hc ⊢
      rw [List.any_append, hc, Bool.true_or]

theorem addPendingSetup_of_contains (pending : List PendingSetup) (s15 : List Candle)
    (symbol : Sym) (direction : Direction) (r : SetupCheckResult) (t : Int)
    (ht : getLast15mOpenTime s15 = some t)
    (hc : containsTriple pending symbol direction t = true) :
    addPendingSetup pending s15 symbol direction r = pending := by
  unfold addPendingSetup
  rw [ht]
  dsimp only
  rw [if_pos hc]

theorem armStep_nodup (cs : CandleStore) (symbol : Sym) (direction : Direction)
    (pending : List PendingSetup) (h : NoDupTriple pending) :
    NoDupTriple (armStep cs symbol direction pending) := by
  unfold armStep
  cases check15mSetup direction symbol (cs symbol .i15m) (cs symbol .i4h) with
  | none => exact h
  | some r =>
    dsimp only
    by_cases hr : r.passed = true
    · rw [if_pos hr]
      exact addPendingSetup_nodup _ _ _ _ _ h
    · rw [if_neg hr]
      exact h

theorem armStep_contains_mono (cs : CandleStore) (symbol s0 : Sym)
    (direction d0 : Direction) (pending : List PendingSetup) (t : Int)
    (hc : containsTriple pending s0 d0 t = true) :
    containsTriple (armStep cs symbol direction pending) s0 d0 t = true := by
  unfold armStep
  cases check15mSetup direction symbol (cs symbol .i15m) (cs symbol .i4h) with
  | none => exact hc
  | some r =>
    dsimp only
    by_cases hr : r.passed = true
    · rw [if_pos hr]
      exact addPendingSetup_contains_mono _ _ _ _ _ _ _ _ hc
    · rw [if_neg hr]
      exact hc

theorem armStep_second_noop (cs : CandleStore) (symbol : Sym) (direction : Direction)
    (pending q : List PendingSetup) (t : Int)
    (ht : getLast15mOpenTime (cs symbol .i15m) = some t)
    (hq : containsTriple (armStep cs symbol direction pending) symbol direction t = true →
      containsTriple q symbol direction t = true) :
    armStep cs symbol direction q = q ∨
      (armStep cs symbol direction pending = pending ∧
        ∀ x, armStep cs symbol direction x = x) := by
  unfold armStep at hq ⊢
  revert hq
  cases check15mSetup direction symbol (cs symbol .i15m) (cs symbol .i4h) with
  | none =>
    intro hq
    exact Or.inr ⟨rfl, fun x => rfl⟩
  | some r =>
    intro hq
    dsimp only at hq ⊢
    by_cases hr : r.passed = true
    · rw [if_pos hr] at hq ⊢
      left
      apply addPendingSetup_of_contains _ _ _ _ _ _ ht
      apply hq
      have := addPendingSetup_contains pending (cs symbol .i15m) symbol direction r t ht
      exact this
    · rw [if_neg hr] at hq ⊢
      exact Or.inr ⟨by rw [if_neg hr], fun x => by rw [if_neg hr]⟩

/-- C2 (amended): uniqueness of pending setups is keyed on the full triple
(symbol, direction, armingCandleOpenTime), not on (symbol, direction): a 15m
close never creates two pending setups with the same triple, and re-running
the arming handler on the same slow close (same arming candle) is a no-op;
but a later arming candle creates an additional PendingSetup for the same
(symbol, direction) pair (see the counterexample). -/
theorem pending_unique_per_arming_candle (cs : CandleStore) (sym : Sym)
    (pending : List PendingSetup) :
    (NoDupTriple pending → NoDupTriple (handle15mCloseSym cs sym pending)) ∧
    handle15mCloseSym cs sym (handle15mCloseSym cs sym pending) =
      handle15mCloseSym cs sym pending := by
  constructor
  · intro h
    exact armStep_nodup _ _ _ _ (armStep_nodup _ _ _ _ h)
  · cases ht : getLast15mOpenTime (cs sym .i15m) with
    | none =>
      have hid : ∀ (d : Direction) (x : List PendingSetup), armStep cs sym d x = x := by
        intro d x
        unfold armStep
        cases check15mSetup d sym (cs sym .i15m) (cs sym .i4h) with
        | none => rfl
        | some r =>
          dsimp only
          by_cases hr : r.passed = true
          · rw [if_pos hr]
            unfold addPendingSetup
            rw [ht]
          · rw [if_neg hr]
      unfold handle15mCloseSym
      rw [hid .LONG pending, hid .SHORT pending, hid .LONG pending, hid .SHORT pending]
    | some t =>
      unfold handle15mCloseSym
      have hlongq :
          armStep cs sym .LONG (armStep cs sym .SHORT (armStep cs sym .LONG pending)) =
            armStep cs sym .SHORT (armStep cs sym .LONG pending) ∨
          (∀ x, armStep cs sym .LONG x = x) := by
        rcases armStep_second_noop cs sym .LONG pending
          (armStep cs sym .SHORT (armStep cs sym .LONG pending)) t ht
          (fun hc => armStep_contains_mono cs sym sym .SHORT .LONG _ t hc) with h | h
        · exact Or.inl h
        · exact Or.inr h.2
      have hshortq :
          armStep cs sym .SHORT (armStep cs sym .SHORT (armStep cs sym .LONG pending)) =
            armStep cs sym .SHORT (armStep cs sym .LONG pending) ∨
          (∀ x, armStep cs sym .SHORT x = x) := by
        rcases armStep_second_noop cs sym .SHORT (armStep cs sym .LONG pending)
          (armStep cs sym .SHORT (armStep cs sym .LONG pending)) t ht
          (fun hc => hc) with h | h
        · exact Or.inl h
        · exact Or.inr h.2
      rcases hlongq with hL | hL
      · rw [hL]
        rcases hshortq with hS | hS
        · exact hS
        · rw [hS, hS]
      · rw [hL]
        rcases hshortq with hS | hS
        · exact hS
        · rw [hS, hS]

unseal Rat.add Rat.mul Rat.inv Rat.sub in
/-- Witness for C2 at a concrete state: arming from an empty pending list. -/
theorem pending_unique_per_arming_candle_witness :
    NoDupTriple [] ∧
    NoDupTriple (handle15mCloseSym exStoreA ethSym []) ∧
    handle15mCloseSym exStoreA ethSym (handle15mCloseSym exStoreA ethSym []) =
      handle15mCloseSym exStoreA ethSym [] :=
  ⟨List.Pairwise.nil,
   (pending_unique_per_arming_candle exStoreA ethSym []).1 List.Pairwise.nil,
   (pending_unique_per_arming_candle exStoreA ethSym []).2⟩

unseal Rat.add Rat.mul Rat.inv Rat.sub in
/-- C2 counterexample: when the arming predicate matches on two consecutive
slow closes (arming candles 900000 and 1800000) before the first pending
entry resolves, the engine holds TWO pending setups for the same
(instrument, direction) pair — the second match is not a no-op. -/
theorem duplicate_pending_counterexample :
    ((handle15mClose exStoreB [ethSym]
        (handle15mClose exStoreA [ethSym] [])).filter
      (fun ps => ps.symbol = ethSym ∧ ps.direction = .LONG)).length = 2 := by
  decide

/-! ### Component lemmas for `handle5mClose` -/

theorem fireOne_components (a1 a2 : OpenPositionParams → ExecResult) (n1 n2 : String)
    (sym : Sym) (c : Candle) (st1 st2 : Handle5mState) (ps : PendingSetup)
    (hp : st1.pending = st2.pending) :
    (fireOne a1 n1 sym c st1 ps).pending = (fireOne a2 n2 sym c st2 ps).pending ∧
    (st1.attempts = st2.attempts →
      (fireOne a1 n1 sym c st1 ps).attempts = (fireOne a2 n2 sym c st2 ps).attempts) ∧
    (n1 = n2 → st1.signals = st2.signals →
      (fireOne a1 n1 sym c st1 ps).signals = (fireOne a2 n2 sym c st2 ps).signals) ∧
    (a1 = a2 → st1.outcomes = st2.outcomes →
      (fireOne a1 n1 sym c st1 ps).outcomes = (fireOne a2 n2 sym c st2 ps).outcomes) := by
  have hparams :
      executeSignalParams
        ⟨buildSignalId sym ps.direction c, sym, ps.direction, c, ps.setupInfo, n1⟩ =
      executeSignalParams
        ⟨buildSignalId sym ps.direction c, sym, ps.direction, c, ps.setupInfo, n2⟩ := by
    unfold executeSignalParams
    cases ps.direction <;> rfl
  unfold fireOne
  refine ⟨?_, fun ha => ?_, fun hn hs => ?_, fun hadapt ho => ?_⟩
  · dsimp only
    rw [hp]
  · dsimp only
    rw [ha, hparams]
  · subst hn
    dsimp only
    rw [hs]
  · subst hadapt
    dsimp only
    rw [ho, hparams]

theorem fireLoop_components (a1 a2 : OpenPositionParams → ExecResult) (n1 n2 : String)
    (sym : Sym) (c : Candle) :
    ∀ (rel : List PendingSetup) (st1 st2 : Handle5mState),
      st1.pending = st2.pending →
      (rel.foldl (fireOne a1 n1 sym c) st1).pending =
        (rel.foldl (fireOne a2 n2 sym c) st2).pending ∧
      (st1.attempts = st2.attempts →
        (rel.foldl (fireOne a1 n1 sym c) st1).attempts =
          (rel.foldl (fireOne a2 n2 sym c) st2).attempts) ∧
      (n1 = n2 → st1.signals = st2.signals →
        (rel.foldl (fireOne a1 n1 sym c) st1).signals =
          (rel.foldl (fireOne a2 n2 sym c) st2).signals) ∧
      (a1 = a2 → st1.outcomes = st2.outcomes →
        (rel.foldl (fireOne a1 n1 sym c) st1).outcomes =
          (rel.foldl (fireOne a2 n2 sym c) st2).outcomes)
  | [], st1, st2, hp => ⟨hp, fun ha => ha, fun _ hs => hs, fun _ ho => ho⟩
  | ps :: rest, st1, st2, hp => by
    have hstep := fireOne_components a1 a2 n1 n2 sym c st1 st2 ps hp
    have hrec := fireLoop_components a1 a2 n1 n2 sym c rest
      (fireOne a1 n1 sym c st1 ps) (fireOne a2 n2 sym c st2 ps) hstep.1
    refine ⟨hrec.1, fun ha => hrec.2.1 (hstep.2.1 ha),
      fun hn hs => hrec.2.2.1 hn (hstep.2.2.1 hn hs),
      fun hadapt ho => hrec.2.2.2 hadapt (hstep.2.2.2 hadapt ho)⟩

theorem handle5mCloseSym_components (cs : CandleStore)
    (a1 a2 : OpenPositionParams → ExecResult) (n1 n2 : String)
    (st1 st2 : Handle5mState) (sym : Sym) (hp : st1.pending = st2.pending) :
    (handle5mCloseSym cs a1 n1 st1 sym).pending = (handle5mCloseSym cs a2 n2 st2 sym).pending ∧
    (st1.attempts = st2.attempts →
      (handle5mCloseSym cs a1 n1 st1 sym).attempts =
        (handle5mCloseSym cs a2 n2 st2 sym).attempts) ∧
    (n1 = n2 → st1.signals = st2.signals →
      (handle5mCloseSym cs a1 n1 st1 sym).signals =
        (handle5mCloseSym cs a2 n2 st2 sym).signals) ∧
    (a1 = a2 → st1.outcomes = st2.outcomes →
      (handle5mCloseSym cs a1 n1 st1 sym).outcomes =
        (handle5mCloseSym cs a2 n2 st2 sym).outcomes) := by
  unfold handle5mCloseSym
  cases hlast : (((getCandles (cs sym .i5m) 10).filter (fun c => c.closed)).getLast?) with
  | none =>
    exact ⟨hp, fun ha => ha, fun _ hs => hs, fun _ ho => ho⟩
  | some last5m =>
    rw [← hp]
    exact fireLoop_components a1 a2 n1 n2 sym last5m
      (st1.pending.filter (fun ps => ps.symbol = sym)) st1 st2 hp

theorem handle5mClose_components (cs : CandleStore)
    (a1 a2 : OpenPositionParams → ExecResult) (n1 n2 : String) :
    ∀ (symbols : List Sym) (st1 st2 : Handle5mState),
      st1.pending = st2.pending →
      (symbols.foldl (handle5mCloseSym cs a1 n1) st1).pending =
        (symbols.foldl (handle5mCloseSym cs a2 n2) st2).pending ∧
      (st1.attempts = st2.attempts →
        (symbols.foldl (handle5mCloseSym cs a1 n1) st1).attempts =
          (symbols.foldl (handle5mCloseSym cs a2 n2) st2).attempts) ∧
      (n1 = n2 → st1.signals = st2.signals →
        (symbols.foldl (handle5mCloseSym cs a1 n1) st1).signals =
          (symbols.foldl (handle5mCloseSym cs a2 n2) st2).signals) ∧
      (a1 = a2 → st1.outcomes = st2.outcomes →
        (symbols.foldl (handle5mCloseSym cs a1 n1) st1).outcomes =
          (symbols.foldl (handle5mCloseSym cs a2 n2) st2).outcomes)
  | [], st1, st2, hp => ⟨hp, fun ha => ha, fun _ hs => hs, fun _ ho => ho⟩
  | sym :: rest, st1, st2, hp => by
    have hstep := handle5mCloseSym_components cs a1 a2 n1 n2 st1 st2 sym hp
    have hrec := handle5mClose_components cs a1 a2 n1 n2 rest
      (handle5mCloseSym cs a1 n1 st1 sym) (handle5mCloseSym cs a2 n2 st2 sym) hstep.1
    refine ⟨hrec.1, fun ha => hrec.2.1 (hstep.2.1 ha),
      fun hn hs => hrec.2.2.1 hn (hstep.2.2.1 hn hs),
      fun hadapt ho => hrec.2.2.2 hadapt (hstep.2.2.2 hadapt ho)⟩

/-! ### C3 (amended) — session windows are implemented but never consulted -/

/-- C3 (amended): `checkSessionFilter` implements exactly the two UTC windows
00:05–13:55 and 14:05–21:55 (13:55 allowed, 13:56 rejected, 14:05 allowed,
boundaries included), but `handle5mClose` never consults it: the engine's 5m
close handling is completely independent of the wall-clock time — the
pending list, the adapter invocations and the outcomes are identical for any
two clock readings, so armed setups fire inside and outside the windows
alike and are never disarmed by a time gate. -/
theorem checkSessionFilter_never_consulted :
    (checkSessionFilter 13 55 = true ∧ checkSessionFilter 13 56 = false ∧
     checkSessionFilter 14 5 = true ∧ checkSessionFilter 0 4 = false ∧
     checkSessionFilter 0 5 = true ∧ checkSessionFilter 21 55 = true ∧
     checkSessionFilter 21 56 = false) ∧
    ∀ (cs : CandleStore) (adapter : OpenPositionParams → ExecResult) (n1 n2 : String)
      (symbols : List Sym) (pending : List PendingSetup),
      (handle5mClose cs adapter n1 symbols pending).pending =
        (handle5mClose cs adapter n2 symbols pending).pending ∧
      (handle5mClose cs adapter n1 symbols pending).attempts =
        (handle5mClose cs adapter n2 symbols pending).attempts ∧
      (handle5mClose cs adapter n1 symbols pending).outcomes =
        (handle5mClose cs adapter n2 symbols pending).outcomes := by
  refine ⟨by decide, fun cs adapter n1 n2 symbols pending => ?_⟩
  have h := handle5mClose_components cs adapter adapter n1 n2 symbols
    ⟨pending, [], [], []⟩ ⟨pending, [], [], []⟩ rfl
  exact ⟨h.1, h.2.1 rfl, h.2.2.2 rfl rfl⟩

theorem fireLoop_pending (a : OpenPositionParams → ExecResult) (n : String)
    (sym : Sym) (c : Candle) :
    ∀ (rel : List PendingSetup) (st : Handle5mState),
      (rel.foldl (fireOne a n sym c) st).pending =
        st.pending.filter (fun p => rel.all (fun ps => !tripleEq p ps))
  | [], st => by simp
  | ps :: rest, st => by
    rw [List.foldl_cons, fireLoop_pending a n sym c rest]
    have h1 : (fireOne a n sym c st ps).pending =
        st.pending.filter (fun p => !tripleEq p ps) := by
      unfold fireOne
      dsimp only
      apply List.filter_congr
      intro p _
      cases h : tripleEq p ps <;> simp [h]
    rw [h1, List.filter_filter]
    apply List.filter_congr
    intro p _
    cases h : tripleEq p ps <;> simp [h]

theorem fireLoop_signals_length (a : OpenPositionParams → ExecResult) (n : String)
    (sym : Sym) (c : Candle) :
    ∀ (rel : List PendingSetup) (st : Handle5mState),
      (rel.foldl (fireOne a n sym c) st).signals.length = st.signals.length + rel.length
  | [], st => by simp
  | ps :: rest, st => by
    rw [List.foldl_cons, fireLoop_signals_length a n sym c rest]
    have h1 : (fireOne a n sym c st ps).signals.length = st.signals.length + 1 := by
      unfold fireOne
      simp
    rw [h1, List.length_cons]
    omega

/-- Model of `tripleEq` is reflexive. -/
theorem tripleEq_refl (p : PendingSetup) : tripleEq p p = true := by
  simp [tripleEq]

/-! ### C5 (amended) — disarm and emit happen regardless of the outcome -/

/-- C5 (amended): for every fired setup the engine removes every pending
setup of the fired symbol and emits one signal event per processed pending
setup, and both the surviving pending list and the emitted signals are
identical whatever result the adapter returns; however the emitted
`TriggerSignal` does not carry the adapter outcome (the outcome goes only to
logs and dashboard state). -/
theorem fired_setup_never_survives (cs : CandleStore)
    (a1 a2 : OpenPositionParams → ExecResult) (n : String) (sym : Sym)
    (pending : List PendingSetup) :
    ((((getCandles (cs sym .i5m) 10).filter (fun c => c.closed)).getLast?).isSome = true →
      (handle5mClose cs a1 n [sym] pending).pending =
        pending.filter (fun p => ¬ p.symbol = sym) ∧
      (handle5mClose cs a1 n [sym] pending).signals.length =
        (pending.filter (fun p => p.symbol = sym)).length) ∧
    (handle5mClose cs a1 n [sym] pending).signals =
      (handle5mClose cs a2 n [sym] pending).signals ∧
    (handle5mClose cs a1 n [sym] pending).pending =
      (handle5mClose cs a2 n [sym] pending).pending := by
  have hcomp := handle5mClose_components cs a1 a2 n n [sym]
    ⟨pending, [], [], []⟩ ⟨pending, [], [], []⟩ rfl
  refine ⟨fun hsome => ?_, hcomp.2.2.1 rfl rfl, hcomp.1⟩
  have hrun : handle5mClose cs a1 n [sym] pending =
      handle5mCloseSym cs a1 n ⟨pending, [], [], []⟩ sym := by
    unfold handle5mClose
    rw [List.foldl_cons, List.foldl_nil]
  rw [hrun]
  unfold handle5mCloseSym
  cases hlast : (((getCandles (cs sym .i5m) 10).filter (fun c => c.closed)).getLast?) with
  | none => rw [hlast] at hsome; simp at hsome
  | some last5m =>
    constructor
    · rw [fireLoop_pending]
      apply List.filter_congr
      intro p hp
      by_cases hsym : p.symbol = sym
      · have hmem : p ∈ pending.filter (fun ps => ps.symbol = sym) :=
          List.mem_filter.mpr ⟨hp, by simp [hsym]⟩
        have hall : ((pending.filter (fun ps => ps.symbol = sym)).all
            (fun ps => !tripleEq p ps)) = false := by
          by_contra hco
          have htrue : ((pending.filter (fun ps => ps.symbol = sym)).all
              (fun ps => !tripleEq p ps)) = true := by
            cases h : ((pending.filter (fun ps => ps.symbol = sym)).all
                (fun ps => !tripleEq p ps)) with
            | true => rfl
            | false => exact absurd h hco
          have := (List.all_eq_true.mp htrue) p hmem
          rw [tripleEq_refl] at this
          simp at this
        rw [hall]
        simp [hsym]
      · have hall : ((pending.filter (fun ps => ps.symbol = sym)).all
            (fun ps => !tripleEq p ps)) = true := by
          apply List.all_eq_true.mpr
          intro ps hpsmem
          have hps : ps.symbol = sym := by
            have := (List.mem_filter.mp hpsmem).2
            simpa using this
          have : tripleEq p ps = false := by
            unfold tripleEq
            simp only [decide_eq_false_iff_not]
            intro hcontra
            exact hsym (hcontra.1.trans hps)
          simp [this]
        rw [hall]
        simp [hsym]
    · rw [fireLoop_signals_length]
      simp

unseal Rat.add Rat.mul Rat.inv Rat.sub in
/-- Witness for C5 at a concrete state: one closed 5m candle and one pending
LONG setup, compared under a failing and a succeeding adapter. -/
theorem fired_setup_never_survives_witness :
    ((((getCandles (exStore5m ethSym .i5m) 10).filter (fun c => c.closed)).getLast?).isSome
        = true) ∧
    ((handle5mClose exStore5m (fun _ => ExecResult.failure errMsg) isoT3 [ethSym]
        [exPending]).pending = [exPending].filter (fun p => ¬ p.symbol = ethSym) ∧
      (handle5mClose exStore5m (fun _ => ExecResult.failure errMsg) isoT3 [ethSym]
        [exPending]).signals.length =
        ([exPending].filter (fun p => p.symbol = ethSym)).length) ∧
    (handle5mClose exStore5m (fun _ => ExecResult.failure errMsg) isoT3 [ethSym]
        [exPending]).signals =
      (handle5mClose exStore5m (fun _ => ExecResult.success) isoT3 [ethSym]
        [exPending]).signals ∧
    (handle5mClose exStore5m (fun _ => ExecResult.failure errMsg) isoT3 [ethSym]
        [exPending]).pending =
      (handle5mClose exStore5m (fun _ => ExecResult.success) isoT3 [ethSym]
        [exPending]).pending :=
  ⟨by decide,
   (fired_setup_never_survives exStore5m (fun _ => ExecResult.failure errMsg)
      (fun _ => ExecResult.success) isoT3 ethSym [exPending]).1 (by decide),
   (fired_setup_never_survives exStore5m (fun _ => ExecResult.failure errMsg)
      (fun _ => ExecResult.success) isoT3 ethSym [exPending]).2.1,
   (fired_setup_never_survives exStore5m (fun _ => ExecResult.failure errMsg)
      (fun _ => ExecResult.success) isoT3 ethSym [exPending]).2.2⟩

/-! ### C5 counterexample — the emitted signal does not carry the outcome -/

unseal Rat.add Rat.mul Rat.inv Rat.sub in
/-- C5 counterexample: running the same 5m close once with an adapter that
fails and once with one that succeeds emits exactly the same (nonempty)
signal events — the `TriggerSignal` passed to `onSignal` handlers carries no
execution outcome — even though the adapter outcomes differ. -/
theorem signal_outcome_counterexample :
    (handle5mClose exStore5m (fun _ => ExecResult.failure errMsg) isoT [ethSym]
        [exPending]).signals =
      (handle5mClose exStore5m (fun _ => ExecResult.success) isoT [ethSym]
        [exPending]).signals ∧
    (handle5mClose exStore5m (fun _ => ExecResult.failure errMsg) isoT [ethSym]
        [exPending]).signals ≠ [] ∧
    (handle5mClose exStore5m (fun _ => ExecResult.failure errMsg) isoT [ethSym]
        [exPending]).outcomes ≠
      (handle5mClose exStore5m (fun _ => ExecResult.success) isoT [ethSym]
        [exPending]).outcomes := by
  decide

end Sniper
